import Mathlib

/-!
# Verification of the additive animation engine

A shallow embedding of the animation library in `src/src/lib.rs`: the
per-value animation state machine (`AnimationStatus` with its
`Static`/`Snap`/`Running` variants and the queue of `Animation`s), the
conflict-resolution modes (`AnimationMode`), the additive blend that turns
the queue into one output value, the per-tick pruning, the
notification-suppression memo, and the frame-scheduling context.

Modelling choices:
* Timestamps (`Instant`) and durations (`Duration`) are rationals; easing
  functions (`fn(f64) -> f64`) are functions `ℚ → ℚ`; the interpolation
  space `I` stays a type parameter, with the caller-supplied `tween`
  passed explicitly, exactly as in the Rust generics.
* The `VecDeque` queue is a `List` whose head is the deque's front.
* `front_mut().unwrap()` is fallible, so the state transition of
  `update_animation_status_effect` returns an `Option`; `none` models the
  panic on an empty queue.
* Reads of the ambient clock (`Instant::now()`) become an explicit `now`
  argument.
-/

namespace LeptosAnimation

/-- The four conflict-resolution modes of `AnimationMode` (lib.rs 208-222). -/
inductive AnimationMode : Type where
  | Start : AnimationMode
  | ReplaceOrStart : AnimationMode
  | ReplaceOrSnap : AnimationMode
  | Snap : AnimationMode
deriving DecidableEq, Repr

/-- `Easing = fn(f64) -> f64` (lib.rs 226), over ℚ. -/
abbrev Easing : Type := ℚ → ℚ

/-- `AnimationTarget<T>` (lib.rs 190-204): a target value plus duration,
easing and mode. -/
structure AnimationTarget (T : Type) where
  target : T
  duration : ℚ
  easing : Easing
  mode : AnimationMode

/-- `Animation<T, I>` (lib.rs 228-235). The Rust field `from` is spelled
`from_` because `from` is a Lean keyword. -/
structure Animation (T I : Type) where
  from_ : T
  to_ : T
  to_i : I
  start : ℚ
  duration : ℚ
  easing : Easing

variable {T I : Type}

/-- `Animation::is_finished` (lib.rs 238-240): `Instant::now() > self.start + self.duration`,
with the current instant passed as `now`. -/
def Animation.is_finished (a : Animation T I) (now : ℚ) : Bool :=
  decide (a.start + a.duration < now)

/-- `Animation::progress` (lib.rs 242-244):
`(self.easing)((Instant::now() - self.start).as_secs_f64() / self.duration.as_secs_f64())`.
Neither the time ratio nor the easing result is clamped. -/
def Animation.progress (a : Animation T I) (now : ℚ) : ℚ :=
  a.easing ((now - a.start) / a.duration)

/-- `AnimationStatus<T, I>` (lib.rs 247-264). In `Running`, the list is the
`VecDeque` with its front at the head. -/
inductive AnimationStatus (T I : Type) : Type where
  | Static : T → AnimationStatus T I
  | Snap : T → AnimationStatus T I
  | Running : T → I → List (Animation T I) → AnimationStatus T I

/-- `AnimationStatus::remove_finished_animations` (lib.rs 267-278): drop the
finished animations; an emptied `Running` queue degrades into `Snap(to)`, a
`Snap` degrades into `Static`, a `Static` is untouched. -/
def AnimationStatus.remove_finished_animations (now : ℚ) :
    AnimationStatus T I → AnimationStatus T I
  | .Static value => .Static value
  | .Snap value => .Static value
  | .Running to_ to_i animations =>
      let kept := animations.filter (fun a => ! a.is_finished now)
      if kept.isEmpty then .Snap to_ else .Running to_ to_i kept

/-- `SignalUpdate` (lib.rs 283-286), the memo-filtering hack. -/
inductive SignalUpdate : Type where
  | Ignore : SignalUpdate
  | Update : SignalUpdate
deriving DecidableEq, Repr

/-- `SignalUpdate::eq` (lib.rs 288-295): comparison looks only at `other`,
so two values compare equal exactly when the right one is `Ignore`. -/
def SignalUpdate.eq : SignalUpdate → SignalUpdate → Bool
  | _, .Ignore => true
  | _, .Update => false

/-- A memo notifies its dependents exactly when the freshly computed value is
not `eq` against the stored one; with `SignalUpdate.eq` that depends only on
the fresh value. -/
def memo_notifies (prev fresh : SignalUpdate) : Bool :=
  ! SignalUpdate.eq prev fresh

/-- `tween_default` (lib.rs 298-306): the linear interpolation
`(b - a) * progress + a`, with the same heterogeneous arithmetic as the
Rust trait bounds. The Rust fields `from`/`to` become `from_`/`to_`. -/
def tween_default [HSub T T I] [HMul I ℚ I] [HAdd I T I]
    (from_ to_ : T) (progress : ℚ) : I :=
  (to_ - from_) * progress + from_

/-- The body of the source-listening effect (lib.rs 447-507): how one
`AnimationTarget` transitions the `AnimationStatus`. `none` models the
`front_mut().unwrap()` panic on an empty `Running` queue. -/
def update_animation_status_effect (tween : T → T → ℚ → I) (now : ℚ)
    (animation_target : AnimationTarget T) :
    AnimationStatus T I → Option (AnimationStatus T I)
  | .Static state | .Snap state =>
      match animation_target.mode with
      | .Start | .ReplaceOrStart =>
          let to_i := tween animation_target.target animation_target.target 1
          some (.Running animation_target.target to_i
            [{ from_ := state, to_ := animation_target.target, to_i := to_i,
               start := now, duration := animation_target.duration,
               easing := animation_target.easing }])
      | .ReplaceOrSnap | .Snap => some (.Snap animation_target.target)
  | .Running to_ _to_i animations =>
      match animation_target.mode with
      | .Start =>
          let new_to_i := tween animation_target.target animation_target.target 1
          some (.Running animation_target.target new_to_i
            ({ from_ := to_, to_ := animation_target.target, to_i := new_to_i,
               start := now, duration := animation_target.duration,
               easing := animation_target.easing } :: animations))
      | .ReplaceOrStart | .ReplaceOrSnap =>
          match animations with
          | [] => none
          | last_animation :: rest =>
              let new_to_i := tween animation_target.target animation_target.target 1
              some (.Running animation_target.target new_to_i
                ({ last_animation with
                    to_ := animation_target.target, to_i := new_to_i } :: rest))
      | .Snap => some (.Snap animation_target.target)

/-- The derived output signal's body (lib.rs 534-557): `Static`/`Snap`
evaluate as `tween(state, state, 1.0)`; `Running` folds the queue,
subtracting each animation's remaining delta from `to_i`. -/
def animated_signal_value [Sub I] (tween : T → T → ℚ → I) (now : ℚ) :
    AnimationStatus T I → I
  | .Static state | .Snap state => tween state state 1
  | .Running _ to_i animations =>
      animations.foldl
        (fun acc animation =>
          acc - (animation.to_i - tween animation.from_ animation.to_
            (animation.progress now)))
        to_i

/-- The tick memo's body (lib.rs 513-532): record whether the status was
`Snap`, prune, and return `Update` unless the status was not `Snap` and is
now `Static`. The pruned status is returned alongside. -/
def animation_tick (now : ℚ) (st : AnimationStatus T I) :
    SignalUpdate × AnimationStatus T I :=
  let was_snap := match st with | .Snap _ => true | _ => false
  let pruned := st.remove_finished_animations now
  (if was_snap then .Update
   else match pruned with | .Static _ => .Ignore | _ => .Update,
   pruned)

/-- `AnimationContextState` (lib.rs 11-16); the request handle is dropped. -/
inductive AnimationContextState : Type where
  | NoAnimationFrameRequested : AnimationContextState
  | AnimationFrameRequested : AnimationContextState
  | CustomAnimationFrameRequested : AnimationContextState
deriving DecidableEq, Repr

/-- The observable scheduler state of an `AnimationContext` (lib.rs 29-36):
its `state` cell plus counters of the externally visible events — calls of
the host frame-request primitive (native `request_animation_frame_with_handle`
or the custom callback) and `notify()`s of the `animation_frame` trigger. -/
structure AnimationContext : Type where
  state : AnimationContextState
  host_requests : ℕ
  ticks : ℕ
deriving DecidableEq, Repr

/-- `AnimationContext::request_animation_frame` (lib.rs 132-162): a no-op
unless the state is `NoAnimationFrameRequested`; otherwise issue the host
primitive once (native or custom, per the `custom` flag) and enter the
matching requested state. -/
def request_animation_frame (custom : Bool) (s : AnimationContext) :
    AnimationContext :=
  if s.state = .NoAnimationFrameRequested then
    { s with
      state := if custom then .CustomAnimationFrameRequested
               else .AnimationFrameRequested,
      host_requests := s.host_requests + 1 }
  else s

/-- The native frame-delivery closure (lib.rs 145-150): reset the state and
notify the `animation_frame` trigger once. -/
def native_frame_callback (s : AnimationContext) : AnimationContext :=
  { s with state := .NoAnimationFrameRequested, ticks := s.ticks + 1 }

/-- The `deliver` closure returned by
`provide_with_custom_request_animation_frame` (lib.rs 113-123): a no-op when
no frame is requested, otherwise reset the state and notify once. -/
def deliver (s : AnimationContext) : AnimationContext :=
  if s.state = .NoAnimationFrameRequested then s
  else { s with state := .NoAnimationFrameRequested, ticks := s.ticks + 1 }

/-- The statuses reachable by the library's own operations: a value starts
`Static(initial target)` (lib.rs 434-436); each later source re-evaluation
applies `update_animation_status_effect` at a strictly later instant; each
tick prunes at a no-earlier instant. The index is the time of the last step. -/
inductive Reachable (tween : T → T → ℚ → I) : ℚ → AnimationStatus T I → Prop where
  | init (t : ℚ) (s : T) : Reachable tween t (.Static s)
  | step_apply {t st st'} (t' : ℚ) (tgt : AnimationTarget T) :
      Reachable tween t st → t < t' →
      update_animation_status_effect tween t' tgt st = some st' →
      Reachable tween t' st'
  | step_tick {t st} (t' : ℚ) : Reachable tween t st → t ≤ t' →
      Reachable tween t' (AnimationStatus.remove_finished_animations t' st)

/-! ## Concrete instances used by the closed witnesses -/

/-- `tween_default` at `T = I = ℚ`: the linear tween of the library's examples. -/
def tweenQ : ℚ → ℚ → ℚ → ℚ := fun a b p => tween_default a b p

/-- The identity easing curve, one concrete member of the easing catalog. -/
def easingQ : Easing := fun x => x

/-- A concrete one-second animation from 0 towards 10 started at instant 0. -/
def anim0 : Animation ℚ ℚ :=
  { from_ := 0, to_ := 10, to_i := 10, start := 0, duration := 1, easing := easingQ }

/-- A concrete `Start`-mode target of 10 over one second. -/
def target10 : AnimationTarget ℚ :=
  { target := 10, duration := 1, easing := easingQ, mode := .Start }

/-- A concrete `ReplaceOrStart`-mode target of 20 over one second. -/
def target20 : AnimationTarget ℚ :=
  { target := 20, duration := 1, easing := easingQ, mode := .ReplaceOrStart }

/-- A concrete `Start`-mode target of 30 over one second. -/
def target30 : AnimationTarget ℚ :=
  { target := 30, duration := 1, easing := easingQ, mode := .Start }

/-- A concrete `Snap`-mode target of 5. -/
def target5 : AnimationTarget ℚ :=
  { target := 5, duration := 1, easing := easingQ, mode := .Snap }

/-! ## The blend engine's value -/

/-- The fold of `animated_signal_value` over a running queue subtracts, from the
settled `to_i`, the sum of each animation's remaining delta. -/
theorem animated_signal_value_running [AddCommGroup I] (tween : T → T → ℚ → I)
    (now : ℚ) (to_ : T) (to_i : I) (animations : List (Animation T I)) :
    animated_signal_value tween now (.Running to_ to_i animations) =
      to_i - (animations.map
        (fun a => a.to_i - tween a.from_ a.to_ (a.progress now))).sum := by
  simp only [animated_signal_value]
  induction animations generalizing to_i with
  | nil => simp
  | cons a l ih => simp [List.foldl_cons, ih, sub_sub]

/-- C1: evaluating the animated output yields `tween(s, s, 1.0)` on
`Static(s)`/`Snap(s)`, and on `Running{to_i, animations}` exactly `to_i`
minus the sum over the queue of `animation.to_i − tween(animation.from,
animation.to, easing(elapsed / duration))`, with no clamping applied to the
time ratio or to the easing result. -/
theorem animated_signal_value_spec [AddCommGroup I] (tween : T → T → ℚ → I)
    (now : ℚ) :
    (∀ s : T, animated_signal_value tween now (AnimationStatus.Static s) = tween s s 1) ∧
    (∀ s : T, animated_signal_value tween now (AnimationStatus.Snap s) = tween s s 1) ∧
    (∀ (to_ : T) (to_i : I) (animations : List (Animation T I)),
      animated_signal_value tween now (AnimationStatus.Running to_ to_i animations) =
        to_i - (animations.map (fun a =>
          a.to_i - tween a.from_ a.to_ (a.easing ((now - a.start) / a.duration)))).sum) := by
  refine ⟨fun s => rfl, fun s => rfl, fun to_ to_i animations => ?_⟩
  simpa [Animation.progress] using
    animated_signal_value_running tween now to_ to_i animations

/-! ## The state machine's transitions -/

/-- C3: from a settled status `Static(s)` or `Snap(s)`, a target with mode
`Start`/`ReplaceOrStart` starts `Running` towards the target with a
one-element queue animating `s → target` under the target's duration and
easing, while a target with mode `ReplaceOrSnap`/`Snap` yields `Snap(target)`. -/
theorem apply_settled_spec (tween : T → T → ℚ → I) (now : ℚ) (s : T)
    (tgt : AnimationTarget T) (st : AnimationStatus T I)
    (hst : st = .Static s ∨ st = .Snap s) :
    ((tgt.mode = .Start ∨ tgt.mode = .ReplaceOrStart) →
      update_animation_status_effect tween now tgt st =
        some (.Running tgt.target (tween tgt.target tgt.target 1)
          [{ from_ := s, to_ := tgt.target, to_i := tween tgt.target tgt.target 1,
             start := now, duration := tgt.duration, easing := tgt.easing }])) ∧
    ((tgt.mode = .ReplaceOrSnap ∨ tgt.mode = .Snap) →
      update_animation_status_effect tween now tgt st = some (.Snap tgt.target)) := by
  rcases hst with rfl | rfl <;>
    exact ⟨fun h => by rcases h with h | h <;> simp [update_animation_status_effect, h],
           fun h => by rcases h with h | h <;> simp [update_animation_status_effect, h]⟩

/-- Witness for C3: applying the `Start`-mode target 10 at `Static 0`. -/
theorem apply_settled_spec_witness :
    ((target10.mode = .Start ∨ target10.mode = .ReplaceOrStart) →
      update_animation_status_effect tweenQ 0 target10 (.Static 0) =
        some (.Running target10.target (tweenQ target10.target target10.target 1)
          [{ from_ := 0, to_ := target10.target,
             to_i := tweenQ target10.target target10.target 1,
             start := 0, duration := target10.duration, easing := target10.easing }])) ∧
    ((target10.mode = .ReplaceOrSnap ∨ target10.mode = .Snap) →
      update_animation_status_effect tweenQ 0 target10 (.Static 0) =
        some (.Snap target10.target)) :=
  apply_settled_spec tweenQ 0 0 target10 (.Static 0) (Or.inl rfl)

/-- A `Start`-mode target applied to a running status: the transition pushes
one animation from the old settled target towards the new one. -/
theorem update_running_start_eq (tween : T → T → ℚ → I) (now : ℚ) (to_ : T)
    (to_i : I) (animations : List (Animation T I)) (tgt : AnimationTarget T)
    (hmode : tgt.mode = .Start) :
    update_animation_status_effect tween now tgt (.Running to_ to_i animations) =
      some (.Running tgt.target (tween tgt.target tgt.target 1)
        ({ from_ := to_, to_ := tgt.target, to_i := tween tgt.target tgt.target 1,
           start := now, duration := tgt.duration, easing := tgt.easing }
          :: animations)) := by
  simp [update_animation_status_effect, hmode]

/-- C4: on a running status, a `Start`-mode target pushes one new animation at
the front of the queue with `from` equal to the previous settled target, keeps
every pre-existing entry unchanged, grows the queue by exactly one, and
resettles `to`/`to_i` at the new target. -/
theorem apply_running_start_spec (tween : T → T → ℚ → I) (now : ℚ) (to_ : T)
    (to_i : I) (animations : List (Animation T I)) (tgt : AnimationTarget T)
    (hmode : tgt.mode = .Start) :
    update_animation_status_effect tween now tgt (.Running to_ to_i animations) =
      some (.Running tgt.target (tween tgt.target tgt.target 1)
        ({ from_ := to_, to_ := tgt.target, to_i := tween tgt.target tgt.target 1,
           start := now, duration := tgt.duration, easing := tgt.easing }
          :: animations)) ∧
    ({ from_ := to_, to_ := tgt.target, to_i := tween tgt.target tgt.target 1,
       start := now, duration := tgt.duration, easing := tgt.easing }
      :: animations).length = animations.length + 1 :=
  ⟨update_running_start_eq tween now to_ to_i animations tgt hmode, by simp⟩

/-- Witness for C4: the `Start`-mode target 30 pushed onto a running status. -/
theorem apply_running_start_spec_witness :
    update_animation_status_effect tweenQ 0 target30 (.Running 10 10 [anim0]) =
      some (.Running target30.target (tweenQ target30.target target30.target 1)
        ({ from_ := 10, to_ := target30.target,
           to_i := tweenQ target30.target target30.target 1,
           start := 0, duration := target30.duration, easing := target30.easing }
          :: [anim0])) ∧
    ({ from_ := (10 : ℚ), to_ := target30.target,
       to_i := tweenQ target30.target target30.target 1,
       start := 0, duration := target30.duration, easing := target30.easing }
      :: [anim0]).length = [anim0].length + 1 :=
  apply_running_start_spec tweenQ 0 10 10 [anim0] target30 rfl

/-- C5: on a running status, a `ReplaceOrStart`/`ReplaceOrSnap` target mutates
only the front entry's `to`/`to_i` (and the settled `to`/`to_i`); the front
entry's `from`, `start`, `duration` and `easing`, every other entry, and the
queue's length are unchanged. -/
theorem apply_running_replace_spec (tween : T → T → ℚ → I) (now : ℚ) (to_ : T)
    (to_i : I) (a : Animation T I) (rest : List (Animation T I))
    (tgt : AnimationTarget T)
    (hmode : tgt.mode = .ReplaceOrStart ∨ tgt.mode = .ReplaceOrSnap) :
    update_animation_status_effect tween now tgt (.Running to_ to_i (a :: rest)) =
      some (.Running tgt.target (tween tgt.target tgt.target 1)
        ({ a with to_ := tgt.target, to_i := tween tgt.target tgt.target 1 }
          :: rest)) ∧
    ({ a with to_ := tgt.target, to_i := tween tgt.target tgt.target 1 }
        : Animation T I).from_ = a.from_ ∧
    ({ a with to_ := tgt.target, to_i := tween tgt.target tgt.target 1 }
        : Animation T I).start = a.start ∧
    ({ a with to_ := tgt.target, to_i := tween tgt.target tgt.target 1 }
        : Animation T I).duration = a.duration ∧
    ({ a with to_ := tgt.target, to_i := tween tgt.target tgt.target 1 }
        : Animation T I).easing = a.easing ∧
    ({ a with to_ := tgt.target, to_i := tween tgt.target tgt.target 1 }
      :: rest).length = (a :: rest).length := by
  refine ⟨?_, rfl, rfl, rfl, rfl, rfl⟩
  rcases hmode with h | h <;> simp [update_animation_status_effect, h]

/-- `anim0` retargeted in place by `target20`, for the C5 witness. -/
def anim0_retargeted : Animation ℚ ℚ :=
  { anim0 with to_ := target20.target, to_i := tweenQ target20.target target20.target 1 }

/-- Witness for C5: the `ReplaceOrStart`-mode target 20 retargeting `anim0`
in place. -/
theorem apply_running_replace_spec_witness :
    update_animation_status_effect tweenQ 0 target20 (.Running 10 10 [anim0]) =
      some (.Running target20.target (tweenQ target20.target target20.target 1)
        (anim0_retargeted :: [])) ∧
    anim0_retargeted.from_ = anim0.from_ ∧
    anim0_retargeted.start = anim0.start ∧
    anim0_retargeted.duration = anim0.duration ∧
    anim0_retargeted.easing = anim0.easing ∧
    (anim0_retargeted :: ([] : List (Animation ℚ ℚ))).length =
      (anim0 :: []).length :=
  apply_running_replace_spec tweenQ 0 10 10 anim0 [] target20 (Or.inl rfl)

/-- C6: a `Snap`-mode target on any running status immediately yields
`Snap(target)` with the whole queue discarded; one further tick degrades it to
`Static(target)`; both evaluate to exactly `tween(target, target, 1.0)`. -/
theorem apply_running_snap_spec [Sub I] (tween : T → T → ℚ → I)
    (now now2 : ℚ) (to_ : T) (to_i : I) (animations : List (Animation T I))
    (tgt : AnimationTarget T) (hmode : tgt.mode = .Snap) :
    update_animation_status_effect tween now tgt (.Running to_ to_i animations) =
      some (.Snap tgt.target) ∧
    AnimationStatus.remove_finished_animations (T := T) (I := I) now2
        (.Snap tgt.target) = .Static tgt.target ∧
    animated_signal_value tween now2 (.Snap tgt.target) =
      tween tgt.target tgt.target 1 ∧
    animated_signal_value tween now2 (.Static tgt.target) =
      tween tgt.target tgt.target 1 :=
  ⟨by simp [update_animation_status_effect, hmode], rfl, rfl, rfl⟩

/-- Witness for C6: the `Snap`-mode target 5 applied to a running status. -/
theorem apply_running_snap_spec_witness :
    update_animation_status_effect tweenQ 0 target5 (.Running 10 10 [anim0]) =
      some (.Snap target5.target) ∧
    AnimationStatus.remove_finished_animations (T := ℚ) (I := ℚ) 1
        (.Snap target5.target) = .Static target5.target ∧
    animated_signal_value tweenQ 1 (.Snap target5.target) =
      tweenQ target5.target target5.target 1 ∧
    animated_signal_value tweenQ 1 (.Static target5.target) =
      tweenQ target5.target target5.target 1 :=
  apply_running_snap_spec tweenQ 0 1 10 10 [anim0] target5 rfl

/-! ## Pruning and notification -/

/-- C7: one prune drops exactly the animations whose `start + duration` lies
strictly before `now` and no others; an emptied running queue degrades to
`Snap(to)`, a `Snap(v)` degrades to `Static(v)`, and a `Static` is unchanged;
hence a running status all of whose animations are finished reaches `Snap(to)`
after one prune and `Static(to)`, with the same output value, after another. -/
theorem remove_finished_animations_spec [Sub I] (tween : T → T → ℚ → I)
    (now : ℚ) :
    (∀ a : Animation T I, a.is_finished now = true ↔ a.start + a.duration < now) ∧
    (∀ (to_ : T) (to_i : I) (animations : List (Animation T I)),
      AnimationStatus.remove_finished_animations now (.Running to_ to_i animations) =
        if (animations.filter fun a => ! decide (a.start + a.duration < now)).isEmpty
        then .Snap to_
        else .Running to_ to_i
          (animations.filter fun a => ! decide (a.start + a.duration < now))) ∧
    (∀ v : T, AnimationStatus.remove_finished_animations (T := T) (I := I) now
        (.Snap v) = .Static v) ∧
    (∀ v : T, AnimationStatus.remove_finished_animations (T := T) (I := I) now
        (.Static v) = .Static v) ∧
    (∀ (to_ : T) (to_i : I) (animations : List (Animation T I)),
      (∀ a ∈ animations, a.start + a.duration < now) →
      AnimationStatus.remove_finished_animations now (.Running to_ to_i animations) =
          .Snap to_ ∧
      AnimationStatus.remove_finished_animations now (.Snap (I := I) to_) =
          .Static to_ ∧
      animated_signal_value tween now (.Snap to_) =
        animated_signal_value tween now (.Static to_)) := by
  refine ⟨fun a => by simp [Animation.is_finished], fun to_ to_i animations => rfl,
    fun v => rfl, fun v => rfl, fun to_ to_i animations h => ⟨?_, rfl, rfl⟩⟩
  have hnil : animations.filter (fun a => ! a.is_finished now) = [] := by
    simp only [List.filter_eq_nil_iff, Bool.not_eq_true', Animation.is_finished]
    intro a ha
    simpa using h a ha
  simp [AnimationStatus.remove_finished_animations, hnil]

/-- C8: on a tick, the memo value is `Ignore` — suppressing the downstream
notification — exactly when the status was `Static` before (and hence after)
pruning; a `Snap → Static` transition, a `Running → Snap` transition and a
status that stays `Running` each produce `Update`, which notifies once
whatever the memo's previous value was. -/
theorem animation_tick_notification_spec (now : ℚ) :
    (∀ (v : T) (prev : SignalUpdate),
      animation_tick (I := I) now (.Static v) = (.Ignore, .Static v) ∧
      memo_notifies prev (animation_tick (I := I) now (.Static v)).1 = false) ∧
    (∀ (v : T) (prev : SignalUpdate),
      animation_tick (I := I) now (.Snap v) = (.Update, .Static v) ∧
      memo_notifies prev (animation_tick (I := I) now (.Snap v)).1 = true) ∧
    (∀ (to_ : T) (to_i : I) (animations : List (Animation T I))
        (prev : SignalUpdate),
      (animation_tick now (.Running to_ to_i animations)).1 = .Update ∧
      memo_notifies prev (animation_tick now (.Running to_ to_i animations)).1 =
        true) := by
  refine ⟨fun v prev => ⟨rfl, rfl⟩, fun v prev => ⟨rfl, rfl⟩,
    fun to_ to_i animations prev => ?_⟩
  have h : (animation_tick now (.Running to_ to_i animations)).1 = .Update := by
    simp only [animation_tick, AnimationStatus.remove_finished_animations]
    by_cases hq : (animations.filter fun a => ! a.is_finished now).isEmpty <;>
      simp [hq]
  exact ⟨h, by rw [memo_notifies, h]; cases prev <;> rfl⟩

/-! ## Claim C2: value continuity across a Start-mode push -/

/-- A tween satisfying `tween a b 0 = a` but not `tween a a 1 = a`: it adds
the progress to the first endpoint and ignores the second. -/
def tween_shift : ℚ → ℚ → ℚ → ℚ := fun a _ p => a + p

/-- A running status for `tween_shift`, exactly as one `Start`-mode apply on
`Static 0` builds it: settled target 0 with `to_i = tween_shift 0 0 1`. -/
def running_shift : AnimationStatus ℚ ℚ :=
  .Running 0 (tween_shift 0 0 1)
    [{ from_ := 0, to_ := 0, to_i := tween_shift 0 0 1, start := 0, duration := 1,
       easing := easingQ }]

/-- A `Start`-mode target of 5 over one second. -/
def target5_start : AnimationTarget ℚ :=
  { target := 5, duration := 1, easing := easingQ, mode := .Start }

/-- C2 as stated fails: `tween_shift` satisfies `tween(a, b, 0) = a` and the
easing satisfies `easing(0) = 0`, yet pushing the `Start`-mode target 5 onto
`running_shift` moves the value evaluated at the push instant from 0 to -1. -/
theorem start_push_value_jump_cex :
    (∀ a b : ℚ, tween_shift a b 0 = a) ∧
    easingQ 0 = 0 ∧
    animated_signal_value tween_shift 0 running_shift = 0 ∧
    (∃ st' : AnimationStatus ℚ ℚ,
      update_animation_status_effect tween_shift 0 target5_start running_shift =
        some st' ∧
      animated_signal_value tween_shift 0 st' = -1 ∧
      animated_signal_value tween_shift 0 st' ≠
        animated_signal_value tween_shift 0 running_shift) := by
  refine ⟨fun a b => by simp [tween_shift], rfl, ?_, ⟨_, rfl, ?_, ?_⟩⟩ <;>
    norm_num [animated_signal_value, running_shift, tween_shift, easingQ,
      target5_start, Animation.progress]

/-- C2 (amended): pushing a `Start`-mode animation onto a running status whose
settled `to_i` is `tween(to, to, 1.0)` leaves the value evaluated at the push
instant unchanged, provided `tween(a, b, 0) = a` and `easing(0) = 0` as the
claim assumes, and additionally `tween(a, a, 1) = a`. -/
theorem start_push_value_continuous {V : Type} [AddCommGroup V]
    (tween : V → V → ℚ → V)
    (h0 : ∀ a b : V, tween a b 0 = a) (h1 : ∀ a : V, tween a a 1 = a)
    (now : ℚ) (to_ : V) (animations : List (Animation V V))
    (tgt : AnimationTarget V) (hmode : tgt.mode = .Start)
    (heasing : tgt.easing 0 = 0) (st' : AnimationStatus V V)
    (happly : update_animation_status_effect tween now tgt
        (.Running to_ (tween to_ to_ 1) animations) = some st') :
    animated_signal_value tween now st' =
      animated_signal_value tween now (.Running to_ (tween to_ to_ 1) animations) := by
  rw [update_running_start_eq tween now to_ (tween to_ to_ 1) animations tgt hmode]
    at happly
  have hst : st' = .Running tgt.target (tween tgt.target tgt.target 1)
      ({ from_ := to_, to_ := tgt.target, to_i := tween tgt.target tgt.target 1,
         start := now, duration := tgt.duration, easing := tgt.easing }
        :: animations) := (Option.some_inj.mp happly).symm
  subst hst
  rw [animated_signal_value_running, animated_signal_value_running]
  simp only [List.map_cons, List.sum_cons]
  have hp : ({ from_ := to_, to_ := tgt.target, to_i := tween tgt.target tgt.target 1,
               start := now, duration := tgt.duration, easing := tgt.easing }
      : Animation V V).progress now = 0 := by
    simp [Animation.progress, heasing]
  rw [hp]
  simp only [h0, h1]
  abel

/-- Witness for the amended C2: with the linear tween, pushing the target 30
onto a running status leaves the evaluated value unchanged. -/
theorem start_push_value_continuous_witness :
    animated_signal_value tweenQ 0
        (.Running target30.target (tweenQ target30.target target30.target 1)
          ({ from_ := 10, to_ := target30.target,
             to_i := tweenQ target30.target target30.target 1,
             start := 0, duration := target30.duration, easing := target30.easing }
            :: [anim0])) =
      animated_signal_value tweenQ 0 (.Running 10 (tweenQ 10 10 1) [anim0]) :=
  start_push_value_continuous tweenQ
    (fun a b => by simp [tweenQ, tween_default])
    (fun a => by simp [tweenQ, tween_default])
    0 10 [anim0] target30 rfl rfl _ rfl

/-! ## The frame scheduler -/

/-- `request_animation_frame` is a no-op while a frame request is already
outstanding. -/
theorem request_animation_frame_fixed (custom : Bool) (s : AnimationContext)
    (h : s.state ≠ .NoAnimationFrameRequested) :
    request_animation_frame custom s = s := by
  simp [request_animation_frame, h]

/-- C9: a burst of `N > 1` `request()` calls starting from the idle state
issues the host frame-request primitive exactly once — every call made while
the state is already requested is a no-op, so at most one request is in
flight; the delivered frame, via the native callback or via the custom
`deliver()`, resets the state and publishes exactly one tick; and `deliver()`
is a no-op while the state is `NoAnimationFrameRequested`. -/
theorem request_animation_frame_burst_spec (custom : Bool)
    (s : AnimationContext) (N : ℕ) (hN : 1 < N)
    (hs : s.state = .NoAnimationFrameRequested) :
    ((request_animation_frame custom)^[N] s).host_requests = s.host_requests + 1 ∧
    ((request_animation_frame custom)^[N] s).state ≠ .NoAnimationFrameRequested ∧
    native_frame_callback ((request_animation_frame custom)^[N] s) =
      { state := .NoAnimationFrameRequested,
        host_requests := s.host_requests + 1, ticks := s.ticks + 1 } ∧
    deliver ((request_animation_frame custom)^[N] s) =
      { state := .NoAnimationFrameRequested,
        host_requests := s.host_requests + 1, ticks := s.ticks + 1 } ∧
    deliver s = s := by
  have h1 : request_animation_frame custom s =
      { s with
        state := if custom then .CustomAnimationFrameRequested
                 else .AnimationFrameRequested,
        host_requests := s.host_requests + 1 } := by
    simp [request_animation_frame, hs]
  have hstate : (request_animation_frame custom s).state ≠
      .NoAnimationFrameRequested := by
    rw [h1]; cases custom <;> simp
  have hfix : request_animation_frame custom (request_animation_frame custom s) =
      request_animation_frame custom s :=
    request_animation_frame_fixed custom _ hstate
  have hiter : (request_animation_frame custom)^[N] s =
      request_animation_frame custom s := by
    obtain ⟨M, rfl⟩ : ∃ M, N = M + 1 :=
      ⟨N - 1, (Nat.succ_pred_eq_of_pos (by omega)).symm⟩
    rw [Function.iterate_succ_apply, Function.iterate_fixed hfix]
  rw [hiter, h1]
  refine ⟨rfl, ?_, ?_, ?_, ?_⟩
  · cases custom <;> simp
  · cases custom <;> simp [native_frame_callback]
  · cases custom <;> simp [deliver]
  · simp [deliver, hs]

/-- The idle animation context with zeroed event counters. -/
def ctx0 : AnimationContext :=
  { state := .NoAnimationFrameRequested, host_requests := 0, ticks := 0 }

/-- Witness for C9: two `request()` calls from the idle context. -/
theorem request_animation_frame_burst_spec_witness :
    ((request_animation_frame false)^[2] ctx0).host_requests =
      ctx0.host_requests + 1 ∧
    ((request_animation_frame false)^[2] ctx0).state ≠
      .NoAnimationFrameRequested ∧
    native_frame_callback ((request_animation_frame false)^[2] ctx0) =
      { state := .NoAnimationFrameRequested,
        host_requests := ctx0.host_requests + 1, ticks := ctx0.ticks + 1 } ∧
    deliver ((request_animation_frame false)^[2] ctx0) =
      { state := .NoAnimationFrameRequested,
        host_requests := ctx0.host_requests + 1, ticks := ctx0.ticks + 1 } ∧
    deliver ctx0 = ctx0 :=
  request_animation_frame_burst_spec false ctx0 2 (by decide) rfl

/-! ## The running-queue invariant -/

/-- The queue invariant at time `t`: a running queue is non-empty, strictly
ordered by descending start time (front first), and every start is at or
before `t`; settled statuses carry no obligation. -/
def QueueWF (t : ℚ) : AnimationStatus T I → Prop
  | .Static _ => True
  | .Snap _ => True
  | .Running _ _ animations =>
      animations ≠ [] ∧
      animations.Chain' (fun a b => b.start < a.start) ∧
      ∀ a ∈ animations, a.start ≤ t

/-- One `update_animation_status_effect` step at a strictly later instant
preserves the queue invariant. -/
theorem queueWF_update (tween : T → T → ℚ → I) {t t' : ℚ} (htt : t < t')
    {tgt : AnimationTarget T} {st st' : AnimationStatus T I}
    (hwf : QueueWF t st)
    (happ : update_animation_status_effect tween t' tgt st = some st') :
    QueueWF t' st' := by
  cases st with
  | Static s =>
      cases hm : tgt.mode <;> simp [update_animation_status_effect, hm] at happ <;>
        (subst happ; simp [QueueWF])
  | Snap s =>
      cases hm : tgt.mode <;> simp [update_animation_status_effect, hm] at happ <;>
        (subst happ; simp [QueueWF])
  | Running to_ to_i animations =>
      obtain ⟨hne, hchain, hstarts⟩ := hwf
      cases hm : tgt.mode
      case Start =>
        simp [update_animation_status_effect, hm] at happ
        subst happ
        refine ⟨by simp, ?_, ?_⟩
        · rw [List.chain'_cons']
          refine ⟨fun b hb => ?_, hchain⟩
          exact lt_of_le_of_lt (hstarts b (List.mem_of_mem_head? hb)) htt
        · intro a ha
          rcases List.mem_cons.mp ha with rfl | ha
          · exact le_refl t'
          · exact le_trans (hstarts a ha) (le_of_lt htt)
      case ReplaceOrStart | ReplaceOrSnap =>
        all_goals
          obtain ⟨a, rest, rfl⟩ : ∃ a rest, animations = a :: rest := by
            cases animations with
            | nil => exact absurd rfl hne
            | cons a rest => exact ⟨a, rest, rfl⟩
        all_goals simp [update_animation_status_effect, hm] at happ
        all_goals subst happ
        all_goals
          rw [List.chain'_cons'] at hchain
          refine ⟨by simp, ?_, ?_⟩
          · rw [List.chain'_cons']
            exact ⟨fun b hb => hchain.1 b hb, hchain.2⟩
          · intro x hx
            rcases List.mem_cons.mp hx with rfl | hx
            · exact le_trans (hstarts a (List.mem_cons_self a rest)) (le_of_lt htt)
            · exact le_trans (hstarts x (List.mem_cons_of_mem a hx)) (le_of_lt htt)
      case Snap =>
        simp [update_animation_status_effect, hm] at happ
        subst happ
        trivial

/-- One prune at a no-earlier instant preserves the queue invariant. -/
theorem queueWF_prune {t t' : ℚ} (htt : t ≤ t') {st : AnimationStatus T I}
    (hwf : QueueWF t st) :
    QueueWF t' (AnimationStatus.remove_finished_animations t' st) := by
  cases st with
  | Static v => simp [AnimationStatus.remove_finished_animations, QueueWF]
  | Snap v => simp [AnimationStatus.remove_finished_animations, QueueWF]
  | Running to_ to_i animations =>
      obtain ⟨hne, hchain, hstarts⟩ := hwf
      simp only [AnimationStatus.remove_finished_animations]
      by_cases hemp : (animations.filter fun a => ! a.is_finished t').isEmpty
      · simp [hemp, QueueWF]
      · simp only [hemp, if_false, Bool.false_eq_true]
        refine ⟨by simpa [List.isEmpty_iff] using hemp, ?_, ?_⟩
        · haveI : IsTrans (Animation T I) (fun a b => b.start < a.start) :=
            ⟨fun a b c hab hbc => lt_trans hbc hab⟩
          exact hchain.sublist (List.filter_sublist _)
        · intro a ha
          exact le_trans (hstarts a (List.mem_of_mem_filter ha)) htt

/-- Every reachable status satisfies the queue invariant at its own time. -/
theorem reachable_queueWF (tween : T → T → ℚ → I) {t : ℚ}
    {st : AnimationStatus T I} (h : Reachable tween t st) : QueueWF t st := by
  induction h with
  | init t s => trivial
  | step_apply t' tgt hre hlt happ ih => exact queueWF_update tween hlt ih happ
  | step_tick t' hre hle ih => exact queueWF_prune hle ih

/-- C10: every reachable `Running` status has a non-empty queue strictly
ordered by descending start time; consequently the replace arm's
`front_mut().unwrap()` never panics — the transition is total on reachable
statuses — and a prune whose filter empties the queue produces `Snap(to)`
rather than an empty `Running`. -/
theorem reachable_running_invariant (tween : T → T → ℚ → I) (t : ℚ)
    (st : AnimationStatus T I) (h : Reachable tween t st) :
    (∀ (to_ : T) (to_i : I) (animations : List (Animation T I)),
      st = .Running to_ to_i animations →
      animations ≠ [] ∧ animations.Chain' (fun a b => b.start < a.start)) ∧
    (∀ (t' : ℚ) (tgt : AnimationTarget T),
      (update_animation_status_effect tween t' tgt st).isSome) ∧
    (∀ (t' : ℚ) (to_ : T) (to_i : I) (animations : List (Animation T I)),
      st = .Running to_ to_i animations →
      (animations.filter fun a => ! a.is_finished t').isEmpty →
      AnimationStatus.remove_finished_animations t' st = .Snap to_) := by
  have hwf := reachable_queueWF tween h
  refine ⟨?_, ?_, ?_⟩
  · rintro to_ to_i animations rfl
    exact ⟨hwf.1, hwf.2.1⟩
  · intro t' tgt
    cases st with
    | Static s => cases hm : tgt.mode <;> simp [update_animation_status_effect, hm]
    | Snap s => cases hm : tgt.mode <;> simp [update_animation_status_effect, hm]
    | Running to_ to_i animations =>
        obtain ⟨a, rest, rfl⟩ : ∃ a rest, animations = a :: rest := by
          cases animations with
          | nil => exact absurd rfl hwf.1
          | cons a rest => exact ⟨a, rest, rfl⟩
        cases hm : tgt.mode <;> simp [update_animation_status_effect, hm]
  · rintro t' to_ to_i animations rfl hempty
    simp [AnimationStatus.remove_finished_animations, hempty]

/-- The status reached by one `Start`-mode apply of `target10` at instant 1
on the initial `Static 0`. -/
def running_reached : AnimationStatus ℚ ℚ :=
  .Running target10.target (tweenQ target10.target target10.target 1)
    [{ from_ := 0, to_ := target10.target,
       to_i := tweenQ target10.target target10.target 1,
       start := 1, duration := target10.duration, easing := target10.easing }]

/-- Witness for C10 at the reachable running status `running_reached`. -/
theorem reachable_running_invariant_witness :
    (∀ (to_ : ℚ) (to_i : ℚ) (animations : List (Animation ℚ ℚ)),
      running_reached = .Running to_ to_i animations →
      animations ≠ [] ∧ animations.Chain' (fun a b => b.start < a.start)) ∧
    (∀ (t' : ℚ) (tgt : AnimationTarget ℚ),
      (update_animation_status_effect tweenQ t' tgt running_reached).isSome) ∧
    (∀ (t' : ℚ) (to_ : ℚ) (to_i : ℚ) (animations : List (Animation ℚ ℚ)),
      running_reached = .Running to_ to_i animations →
      (animations.filter fun a => ! a.is_finished t').isEmpty →
      AnimationStatus.remove_finished_animations t' running_reached = .Snap to_) :=
  reachable_running_invariant tweenQ 1 running_reached
    (Reachable.step_apply 1 target10 (Reachable.init 0 0) (by norm_num) rfl)

end LeptosAnimation
